import Mathlib

/-!
Verification of the sosistab3 obfuscation-transport core
(`src/libraries/sillad-sosistab3/src/lib.rs`): the cookie-to-key
derivation with its serialized-parameter encoding, and the asynchronous
stream adapter `SosistabPipe` (poll_read / poll_write).

Byte strings are modelled as `List Nat`; machine-integer overflow plays no
role in the modelled code (no arithmetic on byte values is performed).
-/

set_option maxRecDepth 10000

namespace Sosistab3

/-! ## Cookie and key derivation -/

/-- The UTF-8 bytes of a string (`s.as_bytes()` in the source), modelled as
the code points of its characters; all inputs appearing in the claims are
ASCII, where the two coincide. -/
def strBytes (s : String) : List Nat :=
  s.data.map Char.toNat

/-- Modelled from the spec: `blake3::derive_key(context, material)` is an
external one-way KDF applied with a domain label; the spec treats its output
as an opaque 32-byte secret and requires only determinism and
domain-label separation ("these are distinct").  We model it as the ideal
(injective) KDF — a free encoding of the label together with the material —
dropping the 32-byte truncation, which the spec never inspects. -/
def deriveKey (context : String) (material : List Nat) : List Nat :=
  context.length :: (strBytes context ++ material)

/-- Struct `ObfsParams` from the source: two boolean toggles, default both false. -/
structure ObfsParams where
  obfs_lengths : Bool := false
  obfs_timing : Bool := false
deriving DecidableEq, Repr

/-- Struct `Cookie` from the source: a derived key plus obfuscation parameters. -/
structure Cookie where
  key : List Nat
  params : ObfsParams

/-- The left-brace character, kept out of string literals. -/
def lbrace : Char := Char.ofNat 123

/-- The right-brace character, kept out of string literals. -/
def rbrace : Char := Char.ofNat 125

/-- Model of `serde_json::to_string(&params)`: compact JSON with the two fields in
declaration order, exactly as serde serializes the derived `Serialize`. -/
def jsonChars (p : ObfsParams) : List Char :=
  [lbrace] ++ "\"obfs_lengths\":".data
    ++ (if p.obfs_lengths then "true".data else "false".data)
    ++ ",\"obfs_timing\":".data
    ++ (if p.obfs_timing then "true".data else "false".data)
    ++ [rbrace]

/-- JSON whitespace skipping (space, tab, LF, CR), as in serde_json. -/
def skipWs : List Char → List Char
  | [] => []
  | c :: r =>
    if c = ' ' ∨ c = '\t' ∨ c = '\n' ∨ c = '\r' then skipWs r else c :: r

/-- Whether `p` begins the list `l` (pattern matching helper). -/
def leadsWith : List Char → List Char → Bool
  | [], _ => true
  | _ :: _, [] => false
  | p :: ps, c :: cs => if p = c then leadsWith ps cs else false

/-- The two member names the derived `Deserialize` for `ObfsParams` knows. -/
inductive FieldName where
  | lengths
  | timing
deriving DecidableEq, Repr

/-- Parse one quoted member name of `ObfsParams`. -/
def parseFieldName (l : List Char) : Option (FieldName × List Char) :=
  if leadsWith "\"obfs_lengths\"".data l then some (.lengths, l.drop 14)
  else if leadsWith "\"obfs_timing\"".data l then some (.timing, l.drop 13)
  else none

/-- Parse a JSON boolean literal. -/
def parseBoolLit (l : List Char) : Option (Bool × List Char) :=
  if leadsWith "true".data l then some (true, l.drop 4)
  else if leadsWith "false".data l then some (false, l.drop 5)
  else none

/-- Parse one `"name": bool` member. -/
def parseMember (l : List Char) : Option (FieldName × Bool × List Char) :=
  match parseFieldName l with
  | none => none
  | some (k, l1) =>
    match skipWs l1 with
    | ':' :: l3 =>
      match parseBoolLit (skipWs l3) with
      | none => none
      | some (b, l4) => some (k, b, l4)
    | _ => none

/-- Assemble the struct from the two members (the names are distinct). -/
def mkParams (k1 : FieldName) (b1 b2 : Bool) : ObfsParams :=
  match k1 with
  | .lengths => ⟨b1, b2⟩
  | .timing => ⟨b2, b1⟩

/-- Model of `serde_json::from_str::<ObfsParams>`: the derived `Deserialize` requires
**both** fields (the struct in the source carries no `#[serde(default)]`, so
a missing field is a `missing field` error), rejects duplicate fields, and
accepts them in either order with JSON whitespace.  Texts outside this
grammar (serde_json would additionally skip unknown members, a case no
claim touches) are rejected. -/
def parseObfsParams (s : String) : Option ObfsParams :=
  match skipWs s.data with
  | c :: l0 =>
    if c = lbrace then
      match parseMember (skipWs l0) with
      | none => none
      | some (k1, b1, l1) =>
        match skipWs l1 with
        | c2 :: l2 =>
          if c2 = ',' then
            match parseMember (skipWs l2) with
            | none => none
            | some (k2, b2, l3) =>
              if k1 = k2 then none
              else
                match skipWs l3 with
                | c4 :: l4 =>
                  if c4 = rbrace ∧ skipWs l4 = [] then some (mkParams k1 b1 b2)
                  else none
                | [] => none
          else none
        | [] => none
    else none
  | [] => none

/-- Rust `str::split_once(pat)`: split at the first occurrence of `pat`. -/
def splitOnce (pat : List Char) : List Char → Option (List Char × List Char)
  | [] => none
  | c :: rest =>
    if leadsWith pat (c :: rest) = true then some ([], (c :: rest).drop pat.length)
    else
      match splitOnce pat rest with
      | some (a, b) => some (c :: a, b)
      | none => none

/-- Function `Cookie::new` from the source: split at `"---"`; the part before it is
fed through the KDF with domain label `"cookie"`; the part after it is
parsed as JSON params, falling back to the default on failure
(`unwrap_or_default`). -/
def Cookie.new (s : String) : Cookie :=
  match splitOnce "---".data s.data with
  | some (a, b) =>
    { key := deriveKey "cookie" (a.map Char.toNat)
      params := (parseObfsParams (String.mk b)).getD {} }
  | none =>
    { key := deriveKey "cookie" (strBytes s), params := {} }

/-- Function `Cookie::derive_key` from the source: KDF with domain label
`"server"` or `"client"` applied to the cookie's key. -/
def Cookie.derive_key (c : Cookie) (isServer : Bool) : List Nat :=
  deriveKey (if isServer then "server" else "client") c.key

/-- The lowercase hex alphabet (`hex::encode`'s table). -/
def hexDigits : List Char := "0123456789abcdef".data

/-- One lowercase hex digit. -/
def hexDigit (d : Nat) : Char :=
  hexDigits.getD d 'f'

/-- Model of `hex::encode` of one byte: high nibble then low nibble. -/
def hexPair (n : Nat) : List Char :=
  [hexDigit (n / 16 % 16), hexDigit (n % 16)]

/-- Model of `hex::encode` of a byte string. -/
def hexEncode (l : List Nat) : List Char :=
  l.flatMap hexPair

/-- Model of `char::escape_debug`, restricted to the characters that can
occur in a formatted cookie (hex digits, dashes, JSON punctuation and
letters, double quotes): a double quote or a backslash gains a leading
backslash, everything else passes through.  Control and special unicode
characters, which `escape_debug` would also escape, cannot occur here. -/
def debugEscapeChar (c : Char) : List Char :=
  if c = '"' then ['\\', '"']
  else if c = '\\' then ['\\', '\\']
  else [c]

/-- Model of the escaping performed by `<str as Debug>::fmt` on the
characters of the string. -/
def debugEscape (l : List Char) : List Char :=
  l.flatMap debugEscapeChar

/-- The `Debug` representation of a `Cookie` from the source: the string
`hex::encode(key)` ++ `"---"` ++ `serde_json::to_string(params)` built by
`format!` is then printed with `.fmt(f)`, which resolves to
`<String as Debug>::fmt` (`Debug` is the only `fmt` trait in scope at
lib.rs:3), wrapping the text in double quotes and escaping the inner
quotes. -/
def cookieDebugFmt (c : Cookie) : String :=
  String.mk ('"' ::
    (debugEscape (hexEncode c.key ++ ("---".data ++ jsonChars c.params)) ++ ['"']))

/-! ## The framing/encryption engine (`mod state`, not under `src/`)

Modelled from the spec: `State` is an opaque, mutable per-session engine
exposing exactly `encrypt` (append ciphertext for a plaintext slice to an
output buffer, advancing internal nonce/counter state) and `decrypt`
(attempt to consume a prefix of a raw buffer, appending plaintext to an
output buffer; a need-more-data condition is a non-`BrokenPipe` error, a
fatal authentication/format failure is a `BrokenPipe`-class error).  Since
the adapter claims quantify over arbitrary engine behaviour, decrypt
outcomes are modelled as an oracle script consumed one entry per call, and
encrypt as an arbitrary function of the plaintext plus a call counter. -/

/-- The error kinds the adapter distinguishes (`std::io::ErrorKind`):
`BrokenPipe` is the single fatal decrypt class; everything else is grouped
as `otherErr`. -/
inductive ErrKind where
  | brokenPipe
  | otherErr
deriving DecidableEq, Repr

/-- A `std::io::Error`, reduced to its kind (the only part inspected). -/
structure IoErr where
  kind : ErrKind
deriving DecidableEq, Repr

/-- One scripted outcome of a `State::decrypt` call. -/
inductive DecStep where
  | ok (consumed : Nat) (plain : List Nat)
  | errStep (e : IoErr)

/-- Modelled from the spec: the opaque per-session `State`. -/
structure State where
  encCount : Nat
  encFn : List Nat → List Nat
  decScript : List DecStep

/-- One call of `State::decrypt(raw, out)`: consume the next scripted
outcome. An exhausted script behaves as need-more-data. -/
def State.decrypt (st : State) (raw : List Nat) :
    State × Except IoErr (Nat × List Nat) :=
  match st.decScript with
  | [] => ({ st with decScript := [] }, .error ⟨.otherErr⟩)
  | .ok c p :: rest => ({ st with decScript := rest }, .ok (c, p))
  | .errStep e :: rest => ({ st with decScript := rest }, .error e)

/-- Model of `State::encrypt(buf, out)`: append ciphertext for `buf` to `out`,
advancing the engine. -/
def State.encrypt (st : State) (buf out : List Nat) : State × List Nat :=
  ({ st with encCount := st.encCount + 1 }, out ++ st.encFn buf)

/-- Result of the adapter's inner decrypt loop. -/
structure DecOut where
  state : State
  raw : List Nat
  readBuf : List Nat
  errOut : Option IoErr

/-- The inner decrypt loop of `poll_read` (lines 209–234 of the source):
decrypt repeatedly, draining the consumed prefix of the raw buffer and
appending plaintext to the read buffer, until decrypt errors; a
`BrokenPipe`-class error is recorded for returning, any other error just
ends the loop. -/
def decLoop (ec : Nat) (ef : List Nat → List Nat) :
    List DecStep → List Nat → List Nat → DecOut
  | [], raw, rb => ⟨⟨ec, ef, []⟩, raw, rb, none⟩
  | .ok consumed plain :: rest, raw, rb =>
    decLoop ec ef rest (raw.drop consumed) (rb ++ plain)
  | .errStep e :: rest, raw, rb =>
    if e.kind = .brokenPipe then ⟨⟨ec, ef, rest⟩, raw, rb, some e⟩
    else ⟨⟨ec, ef, rest⟩, raw, rb, none⟩

/-- The inner decrypt loop, started from a `State`. -/
def State.decryptLoop (st : State) (raw rb : List Nat) : DecOut :=
  decLoop st.encCount st.encFn st.decScript raw rb

/-! ## The async pipe adapter (`SosistabPipe`) -/

/-- Type `Poll` from the task system: ready with a value, or pending. -/
inductive Poll (α : Type) where
  | ready (val : α)
  | pending
deriving Repr

/-- One readiness outcome of the lower pipe's `poll_read`: a chunk of
ciphertext bytes delivered into the caller's buffer (empty = end-of-data),
or an I/O error.  An exhausted script models a lower pipe that is not
ready (`Poll::Pending`). -/
inductive RdEv where
  | chunk (data : List Nat)
  | errEv (e : IoErr)

/-- One readiness outcome of the lower pipe's `poll_write`: acceptance of
`n` bytes, or an I/O error.  An exhausted script models `Poll::Pending`. -/
inductive WrEv where
  | accept (n : Nat)
  | errEv (e : IoErr)

/-- Struct `SosistabPipe` from the source, with the lower pipe's readiness
behaviour carried as the two event scripts it would answer with. -/
structure SosistabPipe where
  state : State
  readBuf : List Nat
  readClosed : Bool
  rawReadBuf : List Nat
  toWriteBuf : List Nat
  lowerReads : List RdEv
  lowerWrites : List WrEv

/-- Everything observable after one `poll_read` call: the poll result, the
caller's buffer contents, and the updated pipe fields. -/
structure RdOut where
  res : Poll (Except IoErr Nat)
  buf : List Nat
  state : State
  readBuf : List Nat
  readClosed : Bool
  rawReadBuf : List Nat
  lowerReads : List RdEv

/-- Model of `Poll::Ready(this.read_buf.read(buf))` — `Read` for `VecDeque` copies
`min` of the two lengths from the front of the deque into the caller's
buffer and pops them; the rest of the fields are returned unchanged. -/
def readBufAnswer (st : State) (rb : List Nat) (closed : Bool)
    (raw buf : List Nat) (evs : List RdEv) : RdOut :=
  ⟨.ready (.ok (min rb.length buf.length)),
    rb.take (min rb.length buf.length) ++ buf.drop (min rb.length buf.length),
    st, rb.drop (min rb.length buf.length), closed, raw, evs⟩

/-- The outer loop of `poll_read` (lines 186–238 of the source).  If the
read buffer is non-empty or the stream is closed, answer from the read
buffer.  Otherwise poll the lower pipe, reusing the caller's buffer as
scratch: a zero-length result marks the stream closed and continues; data
is appended to the raw buffer and run through the decrypt loop, returning
a fatal decrypt error, and otherwise continuing the outer loop. -/
def pollReadGo (st : State) (rb : List Nat) (closed : Bool)
    (raw buf : List Nat) : List RdEv → RdOut
  | [] =>
    if rb ≠ [] ∨ closed = true then readBufAnswer st rb closed raw buf []
    else ⟨.pending, buf, st, rb, closed, raw, []⟩
  | .errEv e :: rest =>
    if rb ≠ [] ∨ closed = true then readBufAnswer st rb closed raw buf (.errEv e :: rest)
    else ⟨.ready (.error e), buf, st, rb, closed, raw, rest⟩
  | .chunk data :: rest =>
    if rb ≠ [] ∨ closed = true then readBufAnswer st rb closed raw buf (.chunk data :: rest)
    else if data.take buf.length = [] then
      pollReadGo st rb true raw buf rest
    else
      match decLoop st.encCount st.encFn st.decScript
          (raw ++ data.take buf.length) rb with
      | ⟨st1, raw1, rb1, some e⟩ =>
        ⟨.ready (.error e),
          data.take buf.length ++ buf.drop (data.take buf.length).length,
          st1, rb1, closed, raw1, rest⟩
      | ⟨st1, raw1, rb1, none⟩ =>
        pollReadGo st1 rb1 closed raw1
          (data.take buf.length ++ buf.drop (data.take buf.length).length) rest

/-- Function `SosistabPipe::poll_read`. -/
def pollRead (p : SosistabPipe) (buf : List Nat) : RdOut :=
  pollReadGo p.state p.readBuf p.readClosed p.rawReadBuf buf p.lowerReads

/-- Everything observable after one `poll_write` call. -/
structure WrOut where
  res : Poll (Except IoErr Nat)
  state : State
  toWriteBuf : List Nat
  lowerWrites : List WrEv

/-- The drain loop of `poll_write` (lines 124–147 of the source): repeatedly
offer the whole pending ciphertext to the lower pipe; drain what it
accepts; once empty report the full plaintext length; propagate lower
errors; suspend when the lower pipe is not ready. -/
def pollWriteGo (bufLen : Nat) :
    List Nat → List WrEv → Poll (Except IoErr Nat) × List Nat × List WrEv
  | tw, [] => (.pending, tw, [])
  | tw, .errEv e :: rest => (.ready (.error e), tw, rest)
  | tw, .accept n :: rest =>
    let tw1 := tw.drop (min n tw.length)
    if tw1 = [] then (.ready (.ok bufLen), tw1, rest)
    else pollWriteGo bufLen tw1 rest

/-- Function `SosistabPipe::poll_write` (lines 110–148 of the source): encrypt the
caller's plaintext into `to_write_buf` only when it is empty, then drain. -/
def pollWrite (p : SosistabPipe) (buf : List Nat) : WrOut :=
  let s1 :=
    if p.toWriteBuf = [] then p.state.encrypt buf p.toWriteBuf
    else (p.state, p.toWriteBuf)
  let r := pollWriteGo buf.length s1.2 p.lowerWrites
  ⟨r.1, s1.1, r.2.1, r.2.2⟩

/-- Replace the payload of a successful write result (used to state that a
retried `poll_write` depends on the new slice only through its length). -/
def withOkLen (m : Nat) : Poll (Except IoErr Nat) → Poll (Except IoErr Nat)
  | .ready (.ok _) => .ready (.ok m)
  | x => x

/-! ## Helper lemmas -/

lemma dashes_eq : "---".data = ['-', '-', '-'] := rfl

lemma hexDigit_ne_dash (d : Nat) : hexDigit d ≠ '-' := by
  rcases Nat.lt_or_ge d 16 with h | h
  · interval_cases d <;> decide
  · unfold hexDigit
    rw [List.getD_eq_default]
    · decide
    · show hexDigits.length ≤ d
      have h16 : hexDigits.length = 16 := rfl
      omega

lemma mem_hexEncode_ne_dash {x : Char} {l : List Nat} (hx : x ∈ hexEncode l) :
    x ≠ '-' := by
  rcases List.mem_flatMap.1 hx with ⟨n, -, hn⟩
  simp only [hexPair, List.mem_cons, List.not_mem_nil, or_false] at hn
  rcases hn with h | h <;> exact h ▸ hexDigit_ne_dash _

lemma splitOnce_dashfree (l2 : List Char) :
    ∀ l1 : List Char, (∀ x ∈ l1, x ≠ '-') →
      splitOnce ['-', '-', '-'] (l1 ++ ('-' :: '-' :: '-' :: l2)) = some (l1, l2)
  | [], _ => rfl
  | c :: l1, h => by
    have hc : c ≠ '-' := h c (List.mem_cons_self _ _)
    have ih := splitOnce_dashfree l2 l1 fun x hx => h x (List.mem_cons_of_mem _ hx)
    show splitOnce ['-', '-', '-'] (c :: (l1 ++ ('-' :: '-' :: '-' :: l2))) =
      some (c :: l1, l2)
    have hlw : leadsWith ['-', '-', '-'] (c :: (l1 ++ ('-' :: '-' :: '-' :: l2))) = false := by
      show (if '-' = c then leadsWith ['-', '-'] (l1 ++ ('-' :: '-' :: '-' :: l2))
        else false) = false
      exact if_neg fun hq => hc hq.symm
    simp only [splitOnce]
    rw [if_neg (by simp [hlw]), ih]

lemma parse_jsonChars (p : ObfsParams) :
    parseObfsParams (String.mk (jsonChars p)) = some p := by
  rcases p with ⟨l, t⟩
  cases l <;> cases t <;> rfl

lemma debugEscape_append (a b : List Char) :
    debugEscape (a ++ b) = debugEscape a ++ debugEscape b := by
  simp [debugEscape]

lemma debugEscapeChar_hexDigit (d : Nat) :
    debugEscapeChar (hexDigit d) = [hexDigit d] := by
  rcases Nat.lt_or_ge d 16 with h | h
  · interval_cases d <;> decide
  · unfold hexDigit
    rw [List.getD_eq_default]
    · decide
    · show hexDigits.length ≤ d
      have h16 : hexDigits.length = 16 := rfl
      omega

lemma debugEscape_id (l : List Char) (h : ∀ x ∈ l, debugEscapeChar x = [x]) :
    debugEscape l = l := by
  induction l with
  | nil => rfl
  | cons c r ih =>
    have hc := h c (List.mem_cons_self _ _)
    have ihr := ih fun x hx => h x (List.mem_cons_of_mem _ hx)
    simp only [debugEscape, List.flatMap_cons] at ihr ⊢
    rw [hc, ihr]
    rfl

lemma debugEscape_hexEncode (k : List Nat) :
    debugEscape (hexEncode k) = hexEncode k := by
  apply debugEscape_id
  intro x hx
  rcases List.mem_flatMap.1 hx with ⟨n, -, hn⟩
  simp only [hexPair, List.mem_cons, List.not_mem_nil, or_false] at hn
  rcases hn with h | h <;> exact h ▸ debugEscapeChar_hexDigit _

lemma parse_escaped_json_none (p : ObfsParams) :
    parseObfsParams (String.mk (debugEscape (jsonChars p) ++ ['"'])) = none := by
  rcases p with ⟨l, t⟩
  cases l <;> cases t <;> rfl

/-! ## Claim theorems: cookie side -/

/-- Claim C1 (amended): the Debug representation of a Cookie is the
hex---json string wrapped by `<String as Debug>::fmt` (outer double quotes,
inner quotes escaped); feeding it back into `Cookie::new` yields a Cookie
with DEFAULT params — the escaped JSON after the delimiter no longer parses
— and a key that is the KDF (domain label `"cookie"`) of the leading quote
character followed by the hex encoding of the original key.  Neither the
key nor, for non-default params, the params round-trip. -/
theorem cookie_debug_reparse (c : Cookie) :
    (Cookie.new (cookieDebugFmt c)).params = ⟨false, false⟩ ∧
    (Cookie.new (cookieDebugFmt c)).key =
      deriveKey "cookie" (('"' :: hexEncode c.key).map Char.toNat) := by
  have hesc : (cookieDebugFmt c).data =
      ('"' :: hexEncode c.key) ++
        ('-' :: '-' :: '-' :: (debugEscape (jsonChars c.params) ++ ['"'])) := by
    show '"' ::
        (debugEscape (hexEncode c.key ++ ("---".data ++ jsonChars c.params)) ++ ['"']) = _
    rw [debugEscape_append, debugEscape_hexEncode, debugEscape_append]
    have h3 : debugEscape "---".data = "---".data := rfl
    rw [h3]
    simp [List.append_assoc]
  have hsplit : splitOnce "---".data (cookieDebugFmt c).data =
      some ('"' :: hexEncode c.key, debugEscape (jsonChars c.params) ++ ['"']) := by
    rw [hesc]
    show splitOnce ['-', '-', '-']
        (('"' :: hexEncode c.key) ++
          ('-' :: '-' :: '-' :: (debugEscape (jsonChars c.params) ++ ['"']))) = _
    refine splitOnce_dashfree _ _ ?_
    intro x hx
    rcases List.mem_cons.1 hx with h | h
    · subst h; decide
    · exact mem_hexEncode_ne_dash h
  unfold Cookie.new
  rw [hsplit]
  constructor
  · show (parseObfsParams (String.mk (debugEscape (jsonChars c.params) ++ ['"']))).getD {}
      = ⟨false, false⟩
    rw [parse_escaped_json_none]
    rfl
  · rfl

/-- Claim C1 witness: the amended non-round-trip evaluated at a concrete
cookie. -/
theorem cookie_debug_reparse_w :
    (Cookie.new (cookieDebugFmt (Cookie.new "hello"))).params = ⟨false, false⟩ ∧
    (Cookie.new (cookieDebugFmt (Cookie.new "hello"))).key =
      deriveKey "cookie"
        (('"' :: hexEncode (Cookie.new "hello").key).map Char.toNat) :=
  cookie_debug_reparse (Cookie.new "hello")

/-- Claim C1 counterexample: for the cookie built from
`x---` followed by JSON setting both obfuscation flags (params both true),
re-parsing its Debug representation yields a different key AND different
params — the claim's "same key and the same params" fails on both. -/
theorem cookie_debug_roundtrip_key_ctrex :
    (Cookie.new (cookieDebugFmt (Cookie.new (String.mk ("x---".data ++ ([lbrace] ++
        ("\"obfs_lengths\":true,\"obfs_timing\":true".data ++ [rbrace]))))))).key ≠
      (Cookie.new (String.mk ("x---".data ++ ([lbrace] ++
        ("\"obfs_lengths\":true,\"obfs_timing\":true".data ++ [rbrace]))))).key ∧
    (Cookie.new (cookieDebugFmt (Cookie.new (String.mk ("x---".data ++ ([lbrace] ++
        ("\"obfs_lengths\":true,\"obfs_timing\":true".data ++ [rbrace]))))))).params ≠
      (Cookie.new (String.mk ("x---".data ++ ([lbrace] ++
        ("\"obfs_lengths\":true,\"obfs_timing\":true".data ++ [rbrace]))))).params := by
  exact ⟨by decide, by decide⟩

/-- Claim C6 (code bug evidence): `Cookie::new("cookie---{"obfs_lengths":true}")`
yields DEFAULT params (both false), because the derived deserializer
requires the missing `obfs_timing` field and `unwrap_or_default` swallows
the error; supplying both fields does set `obfs_lengths` — isolating the
missing-field rejection as the cause. -/
theorem cookie_new_partial_json_eval :
    (Cookie.new (String.mk ("cookie---".data ++ ([lbrace] ++
        ("\"obfs_lengths\":true".data ++ [rbrace]))))).params = ⟨false, false⟩ ∧
    (Cookie.new (String.mk ("cookie---".data ++ ([lbrace] ++
        ("\"obfs_lengths\":true,\"obfs_timing\":false".data ++ [rbrace]))))).params
      = ⟨true, false⟩ ∧
    parseObfsParams (String.mk ([lbrace] ++
        ("\"obfs_lengths\":true".data ++ [rbrace]))) = none := by
  exact ⟨rfl, rfl, rfl⟩

/-- Claim C7: `Cookie::new` never fails — when the text after the `"---"`
delimiter is not accepted by the params deserializer, the params fall back
to the default (both false) and the key is still derived from the
pre-delimiter text. -/
theorem cookie_new_parse_fallback (s : String) (a b : List Char)
    (h : splitOnce "---".data s.data = some (a, b))
    (hp : parseObfsParams (String.mk b) = none) :
    (Cookie.new s).params = ⟨false, false⟩ ∧
    (Cookie.new s).key = deriveKey "cookie" (a.map Char.toNat) := by
  unfold Cookie.new
  rw [h]
  refine ⟨?_, rfl⟩
  show (parseObfsParams (String.mk b)).getD {} = ⟨false, false⟩
  rw [hp]
  rfl

/-- Claim C7 witness: concrete malformed parameter text falls back to
default params. -/
theorem cookie_new_parse_fallback_w :
    (Cookie.new "x---nope").params = ⟨false, false⟩ ∧
    (Cookie.new "x---nope").key = deriveKey "cookie" ("x".data.map Char.toNat) :=
  cookie_new_parse_fallback "x---nope" "x".data "nope".data rfl rfl

/-- Claim C8: the two direction keys of any cookie are distinct — the KDF
domain labels `"server"` and `"client"` separate them. -/
theorem derive_key_direction (c : Cookie) :
    c.derive_key true ≠ c.derive_key false := by
  intro h
  have h2 : ("server".length :: (strBytes "server" ++ c.key)) =
      ("client".length :: (strBytes "client" ++ c.key)) := h
  injection h2 with hlen htl
  have h3 : (115 :: (101 :: 114 :: 118 :: 101 :: 114 :: c.key)) =
      (99 :: (108 :: 105 :: 101 :: 110 :: 116 :: c.key)) := htl
  injection h3 with hh
  exact absurd hh (by decide)

/-- Claim C8 witness: direction-key separation at a concrete cookie. -/
theorem derive_key_direction_w :
    (Cookie.mk [] ⟨false, false⟩).derive_key true ≠
      (Cookie.mk [] ⟨false, false⟩).derive_key false :=
  derive_key_direction _

/-! ## Helper lemmas: pipe side -/

lemma decLoop_err_broken :
    ∀ (script : List DecStep) (ec : Nat) (ef : List Nat → List Nat)
      (raw rb : List Nat) (e : IoErr),
      (decLoop ec ef script raw rb).errOut = some e → e.kind = .brokenPipe
  | [], ec, ef, raw, rb, e => by simp [decLoop]
  | .ok c p :: rest, ec, ef, raw, rb, e => by
    simp only [decLoop]
    exact decLoop_err_broken rest ec ef _ _ e
  | .errStep e' :: rest, ec, ef, raw, rb, e => by
    simp only [decLoop]
    split
    · rename_i hk
      intro h
      obtain rfl : e' = e := by simpa using h
      exact hk
    · intro h
      simp at h

lemma readBufAnswer_ok_zero (st : State) (rb : List Nat) (closed : Bool)
    (raw buf : List Nat) (evs : List RdEv) (hcond : rb ≠ [] ∨ closed = true)
    (h : (readBufAnswer st rb closed raw buf evs).res = .ready (.ok 0)) :
    buf = [] ∨ ((readBufAnswer st rb closed raw buf evs).readClosed = true ∧
      (readBufAnswer st rb closed raw buf evs).readBuf = []) := by
  have hk : min rb.length buf.length = 0 := by
    simpa [readBufAnswer] using h
  rcases Nat.min_eq_zero_iff.1 hk with hrb | hbuf
  · have hrbnil : rb = [] := List.length_eq_zero.1 hrb
    rcases hcond with hne | hcl
    · exact absurd hrbnil hne
    · exact Or.inr (by simp [readBufAnswer, hcl, hrbnil])
  · exact Or.inl (List.length_eq_zero.1 hbuf)

lemma pollReadGo_error_src (evs : List RdEv) :
    ∀ (st : State) (rb : List Nat) (closed : Bool) (raw buf : List Nat) (e : IoErr),
      (pollReadGo st rb closed raw buf evs).res = .ready (.error e) →
      e.kind = .brokenPipe ∨ RdEv.errEv e ∈ evs := by
  induction evs with
  | nil =>
    intro st rb closed raw buf e h
    by_cases hcond : rb ≠ [] ∨ closed = true
    · rw [pollReadGo, if_pos hcond] at h
      simp [readBufAnswer] at h
    · rw [pollReadGo, if_neg hcond] at h
      simp at h
  | cons ev rest ih =>
    intro st rb closed raw buf e h
    cases ev with
    | errEv e' =>
      by_cases hcond : rb ≠ [] ∨ closed = true
      · rw [pollReadGo, if_pos hcond] at h
        simp [readBufAnswer] at h
      · rw [pollReadGo, if_neg hcond] at h
        have he : e' = e := by simpa using h
        exact Or.inr (by rw [← he]; exact List.mem_cons_self _ _)
    | chunk data =>
      by_cases hcond : rb ≠ [] ∨ closed = true
      · rw [pollReadGo, if_pos hcond] at h
        simp [readBufAnswer] at h
      · rw [pollReadGo, if_neg hcond] at h
        by_cases hz : data.take buf.length = []
        · rw [if_pos hz] at h
          rcases ih _ _ _ _ _ _ h with hb | hm
          · exact Or.inl hb
          · exact Or.inr (List.mem_cons_of_mem _ hm)
        · rw [if_neg hz] at h
          rcases hd : decLoop st.encCount st.encFn st.decScript
              (raw ++ data.take buf.length) rb with ⟨st1, raw1, rb1, err1⟩
          rw [hd] at h
          cases err1 with
          | some e1 =>
            have he : e1 = e := by simpa using h
            refine Or.inl ?_
            have hb := decLoop_err_broken st.decScript st.encCount st.encFn
              (raw ++ data.take buf.length) rb e1
            rw [hd] at hb
            exact he ▸ hb rfl
          | none =>
            rcases ih _ _ _ _ _ _ h with hb | hm
            · exact Or.inl hb
            · exact Or.inr (List.mem_cons_of_mem _ hm)

lemma pollReadGo_ok_zero (evs : List RdEv) :
    ∀ (st : State) (rb : List Nat) (closed : Bool) (raw buf : List Nat),
      (pollReadGo st rb closed raw buf evs).res = .ready (.ok 0) →
      buf = [] ∨ ((pollReadGo st rb closed raw buf evs).readClosed = true ∧
        (pollReadGo st rb closed raw buf evs).readBuf = []) := by
  induction evs with
  | nil =>
    intro st rb closed raw buf h
    by_cases hcond : rb ≠ [] ∨ closed = true
    · rw [pollReadGo, if_pos hcond] at h ⊢
      exact readBufAnswer_ok_zero _ _ _ _ _ _ hcond h
    · rw [pollReadGo, if_neg hcond] at h
      simp at h
  | cons ev rest ih =>
    intro st rb closed raw buf h
    cases ev with
    | errEv e' =>
      by_cases hcond : rb ≠ [] ∨ closed = true
      · rw [pollReadGo, if_pos hcond] at h ⊢
        exact readBufAnswer_ok_zero _ _ _ _ _ _ hcond h
      · rw [pollReadGo, if_neg hcond] at h
        simp at h
    | chunk data =>
      by_cases hcond : rb ≠ [] ∨ closed = true
      · rw [pollReadGo, if_pos hcond] at h ⊢
        exact readBufAnswer_ok_zero _ _ _ _ _ _ hcond h
      · rw [pollReadGo, if_neg hcond] at h ⊢
        by_cases hz : data.take buf.length = []
        · rw [if_pos hz] at h ⊢
          exact ih _ _ _ _ _ h
        · rw [if_neg hz] at h ⊢
          rcases hd : decLoop st.encCount st.encFn st.decScript
              (raw ++ data.take buf.length) rb with ⟨st1, raw1, rb1, err1⟩
          rw [hd] at h
          cases err1 with
          | some e1 => simp at h
          | none =>
            rcases ih _ _ _ _ _ h with hb | hout
            · exact absurd (List.append_eq_nil.1 hb).1 hz
            · exact Or.inr hout

lemma pollWriteGo_ready_ok :
    ∀ (evs : List WrEv) (tw : List Nat) (bl n : Nat),
      (pollWriteGo bl tw evs).1 = .ready (.ok n) →
      n = bl ∧ (pollWriteGo bl tw evs).2.1 = []
  | [], tw, bl, n => by simp [pollWriteGo]
  | .errEv e :: rest, tw, bl, n => by simp [pollWriteGo]
  | .accept m :: rest, tw, bl, n => by
    simp only [pollWriteGo]
    split
    · rename_i htw
      intro h
      obtain rfl : bl = n := by simpa using h
      exact ⟨rfl, htw⟩
    · exact fun h => pollWriteGo_ready_ok rest _ bl n h

lemma pollWriteGo_drop :
    ∀ (evs : List WrEv) (tw : List Nat) (bl : Nat),
      ∃ k, (pollWriteGo bl tw evs).2.1 = tw.drop k
  | [], tw, bl => ⟨0, rfl⟩
  | .errEv e :: rest, tw, bl => ⟨0, rfl⟩
  | .accept m :: rest, tw, bl => by
    simp only [pollWriteGo]
    split
    · rename_i htw
      exact ⟨min m tw.length, htw.symm ▸ rfl⟩
    · rcases pollWriteGo_drop rest (tw.drop (min m tw.length)) bl with ⟨k, hk⟩
      exact ⟨min m tw.length + k, by rw [hk, List.drop_drop, Nat.add_comm]⟩

lemma pollWriteGo_len_free :
    ∀ (evs : List WrEv) (tw : List Nat) (bl1 bl2 : Nat),
      (pollWriteGo bl2 tw evs).2 = (pollWriteGo bl1 tw evs).2 ∧
      (pollWriteGo bl2 tw evs).1 = withOkLen bl2 (pollWriteGo bl1 tw evs).1
  | [], tw, bl1, bl2 => ⟨rfl, rfl⟩
  | .errEv e :: rest, tw, bl1, bl2 => ⟨rfl, rfl⟩
  | .accept m :: rest, tw, bl1, bl2 => by
    simp only [pollWriteGo]
    split
    · exact ⟨rfl, rfl⟩
    · exact pollWriteGo_len_free rest _ bl1 bl2

lemma pollReadGo_chunk_step (st : State) (raw buf data : List Nat) (rest : List RdEv)
    (h4 : data.take buf.length ≠ []) (d : DecOut)
    (hd : decLoop st.encCount st.encFn st.decScript (raw ++ data.take buf.length) [] = d)
    (h5 : d.errOut = none) :
    pollReadGo st [] false raw buf (.chunk data :: rest) =
      pollReadGo d.state d.readBuf false d.raw
        (data.take buf.length ++ buf.drop (data.take buf.length).length) rest := by
  rcases d with ⟨st1, raw1, rb1, err1⟩
  obtain rfl : err1 = none := h5
  rw [pollReadGo, if_neg (by simp), if_neg h4, hd]

lemma pollReadGo_immediate (st : State) (rb : List Nat) (closed : Bool)
    (raw buf : List Nat) (evs : List RdEv) (hcond : rb ≠ [] ∨ closed = true) :
    pollReadGo st rb closed raw buf evs = readBufAnswer st rb closed raw buf evs := by
  cases evs with
  | nil => rw [pollReadGo, if_pos hcond]
  | cons ev rest => cases ev <;> rw [pollReadGo, if_pos hcond]

lemma pollRead_immediate_eq (p : SosistabPipe) (buf : List Nat)
    (hcond : p.readBuf ≠ [] ∨ p.readClosed = true) :
    pollRead p buf =
      readBufAnswer p.state p.readBuf p.readClosed p.rawReadBuf buf p.lowerReads :=
  pollReadGo_immediate _ _ _ _ _ _ hcond

lemma pollWrite_eq_empty (p : SosistabPipe) (buf : List Nat)
    (htw : p.toWriteBuf = []) :
    pollWrite p buf =
      ⟨(pollWriteGo buf.length (p.state.encFn buf) p.lowerWrites).1,
        { p.state with encCount := p.state.encCount + 1 },
        (pollWriteGo buf.length (p.state.encFn buf) p.lowerWrites).2.1,
        (pollWriteGo buf.length (p.state.encFn buf) p.lowerWrites).2.2⟩ := by
  unfold pollWrite State.encrypt
  simp [htw]

lemma pollWrite_eq_pending (p : SosistabPipe) (buf : List Nat)
    (htw : p.toWriteBuf ≠ []) :
    pollWrite p buf =
      ⟨(pollWriteGo buf.length p.toWriteBuf p.lowerWrites).1,
        p.state,
        (pollWriteGo buf.length p.toWriteBuf p.lowerWrites).2.1,
        (pollWriteGo buf.length p.toWriteBuf p.lowerWrites).2.2⟩ := by
  unfold pollWrite
  simp [htw]

/-! ## Claim theorems: pipe side -/

/-- Claim C2: decrypt errors in `poll_read` — a `BrokenPipe`-class decrypt
error is surfaced by the decrypt loop and by `poll_read`; the decrypt loop
surfaces only `BrokenPipe`-class errors; any error `poll_read` returns is a
`BrokenPipe`-class decrypt error or a verbatim lower-pipe error; and with a
need-more-data outcome and no further lower bytes, `poll_read` suspends. -/
theorem poll_read_decrypt_error_policy (st : State) (raw rb : List Nat) (e : IoErr)
    (p : SosistabPipe) (buf data : List Nat) (rest : List RdEv) :
    ((st.decrypt raw).2 = .error e → e.kind = .brokenPipe →
      (st.decryptLoop raw rb).errOut = some e)
  ∧ ((st.decryptLoop raw rb).errOut = some e → e.kind = .brokenPipe)
  ∧ ((pollRead p buf).res = .ready (.error e) →
      e.kind = .brokenPipe ∨ RdEv.errEv e ∈ p.lowerReads)
  ∧ (p.readBuf = [] → p.readClosed = false → p.lowerReads = .chunk data :: rest →
      data.take buf.length ≠ [] →
      (p.state.decryptLoop (p.rawReadBuf ++ data.take buf.length) p.readBuf).errOut
        = some e →
      (pollRead p buf).res = .ready (.error e))
  ∧ (p.readBuf = [] → p.readClosed = false → p.lowerReads = [.chunk data] →
      data.take buf.length ≠ [] →
      p.state.decryptLoop (p.rawReadBuf ++ data.take buf.length) p.readBuf
        = ⟨st, raw, [], none⟩ →
      (pollRead p buf).res = .pending) := by
  refine ⟨?_, ?_, ?_, ?_, ?_⟩
  · intro h hk
    unfold State.decrypt at h
    unfold State.decryptLoop
    cases hs : st.decScript with
    | nil =>
      rw [hs] at h
      exfalso
      have he : (⟨.otherErr⟩ : IoErr) = e := by simpa using h
      rw [← he] at hk
      simp at hk
    | cons d rest' =>
      cases d with
      | ok c pl =>
        rw [hs] at h
        simp at h
      | errStep e0 =>
        rw [hs] at h
        have he : e0 = e := by simpa using h
        simp only [decLoop]
        rw [he, if_pos hk]
  · intro h
    unfold State.decryptLoop at h
    exact decLoop_err_broken _ _ _ _ _ _ h
  · intro h
    exact pollReadGo_error_src p.lowerReads p.state p.readBuf p.readClosed
      p.rawReadBuf buf e h
  · intro h1 h2 h3 h4 h5
    unfold pollRead
    rw [h1, h2, h3]
    rw [pollReadGo, if_neg (by simp), if_neg h4]
    unfold State.decryptLoop at h5
    rw [h1] at h5
    rcases hd : decLoop p.state.encCount p.state.encFn p.state.decScript
        (p.rawReadBuf ++ data.take buf.length) [] with ⟨st1, raw1, rb1, err1⟩
    rw [hd] at h5
    obtain rfl : err1 = some e := h5
    rfl
  · intro h1 h2 h3 h4 h5
    unfold pollRead
    rw [h1, h2, h3]
    rw [pollReadGo, if_neg (by simp), if_neg h4]
    unfold State.decryptLoop at h5
    rw [h1] at h5
    rw [h5]
    show (pollReadGo st [] false raw
      (data.take buf.length ++ buf.drop (data.take buf.length).length) []).res = .pending
    rw [pollReadGo, if_neg (by simp)]

/-- Claim C2 witness: the error policy exercised at concrete states and
pipes — a scripted fatal decrypt error is surfaced, its kind is
`BrokenPipe`, a lower-pipe error is accounted for, a fatal decrypt error
reaches the caller of `poll_read`, and a need-more-data outcome suspends. -/
theorem poll_read_decrypt_error_policy_w :
    ((State.mk 0 (fun _ => []) [.errStep ⟨.brokenPipe⟩]).decryptLoop [9] []).errOut
        = some ⟨.brokenPipe⟩ ∧
    (IoErr.mk .brokenPipe).kind = .brokenPipe ∧
    ((IoErr.mk .otherErr).kind = .brokenPipe ∨
      RdEv.errEv ⟨.otherErr⟩ ∈ [RdEv.errEv ⟨.otherErr⟩]) ∧
    (pollRead (SosistabPipe.mk ⟨0, fun _ => [], [.errStep ⟨.brokenPipe⟩]⟩
        [] false [] [] [.chunk [7]] []) [0]).res = .ready (.error ⟨.brokenPipe⟩) ∧
    (pollRead (SosistabPipe.mk ⟨0, fun _ => [], []⟩
        [] false [] [] [.chunk [7]] []) [0]).res = .pending := by
  refine ⟨?_, ?_, ?_, ?_, ?_⟩
  · exact (poll_read_decrypt_error_policy (State.mk 0 (fun _ => [])
      [.errStep ⟨.brokenPipe⟩]) [9] [] ⟨.brokenPipe⟩
      (SosistabPipe.mk ⟨0, fun _ => [], []⟩ [] false [] [] [] []) [] [] []).1 rfl rfl
  · exact (poll_read_decrypt_error_policy (State.mk 0 (fun _ => [])
      [.errStep ⟨.brokenPipe⟩]) [9] [] ⟨.brokenPipe⟩
      (SosistabPipe.mk ⟨0, fun _ => [], []⟩ [] false [] [] [] []) [] [] []).2.1 rfl
  · exact (poll_read_decrypt_error_policy (State.mk 0 (fun _ => []) []) [] []
      ⟨.otherErr⟩ (SosistabPipe.mk ⟨0, fun _ => [], []⟩ [] false [] []
        [.errEv ⟨.otherErr⟩] []) [] [] []).2.2.1 rfl
  · exact (poll_read_decrypt_error_policy (State.mk 0 (fun _ => []) []) [] []
      ⟨.brokenPipe⟩ (SosistabPipe.mk ⟨0, fun _ => [], [.errStep ⟨.brokenPipe⟩]⟩
        [] false [] [] [.chunk [7]] []) [0] [7] []).2.2.2.1 rfl rfl rfl
      (by decide) rfl
  · exact (poll_read_decrypt_error_policy (State.mk 0 (fun _ => []) []) [7] []
      ⟨.otherErr⟩ (SosistabPipe.mk ⟨0, fun _ => [], []⟩
        [] false [] [] [.chunk [7]] []) [0] [7] []).2.2.2.2 rfl rfl rfl
      (by decide) rfl

/-- Claim C3: `poll_write` reports `Ready(Ok(n))` only with `to_write_buf`
fully drained, and then `n` is the full plaintext length; with pending
ciphertext and a lower pipe that is not ready, it suspends. -/
theorem poll_write_full_flush (p : SosistabPipe) (buf : List Nat) (n : Nat) :
    ((pollWrite p buf).res = .ready (.ok n) →
      n = buf.length ∧ (pollWrite p buf).toWriteBuf = [])
  ∧ (p.toWriteBuf ≠ [] → p.lowerWrites = [] → (pollWrite p buf).res = .pending) := by
  constructor
  · intro h
    by_cases htw : p.toWriteBuf = []
    · rw [pollWrite_eq_empty p buf htw] at h ⊢
      exact pollWriteGo_ready_ok p.lowerWrites _ buf.length n h
    · rw [pollWrite_eq_pending p buf htw] at h ⊢
      exact pollWriteGo_ready_ok p.lowerWrites _ buf.length n h
  · intro htw hw
    rw [pollWrite_eq_pending p buf htw, hw]
    rfl

/-- Claim C3 witness: a lower pipe accepting the whole frame yields
`Ready(Ok(plaintext length))` with an empty pending buffer; a never-ready
lower pipe suspends a retried write. -/
theorem poll_write_full_flush_w :
    (2 = ([1, 2] : List Nat).length ∧
      (pollWrite (SosistabPipe.mk ⟨0, fun _ => [5, 5, 5], []⟩ [] false [] [] []
        [.accept 3]) [1, 2]).toWriteBuf = []) ∧
    (pollWrite (SosistabPipe.mk ⟨0, fun _ => [], []⟩ [] false [] [4, 4] [] [])
      [1]).res = .pending := by
  exact ⟨(poll_write_full_flush _ [1, 2] 2).1 rfl,
    (poll_write_full_flush _ [1] 0).2 (by decide) rfl⟩

/-- Claim C4: `poll_write` encrypts the caller's slice exactly when
`to_write_buf` is empty at entry (the engine advances and the pending
buffer becomes a drained suffix of the fresh ciphertext); on a re-invocation
with pending ciphertext the engine state is untouched, the pending
ciphertext is only drained, and the outcome depends on the passed slice
only through its reported length — a changed slice is never encrypted. -/
theorem poll_write_retry_frame (p : SosistabPipe) (buf : List Nat) :
    (p.toWriteBuf = [] →
      (pollWrite p buf).state = { p.state with encCount := p.state.encCount + 1 } ∧
      ∃ k, (pollWrite p buf).toWriteBuf = (p.state.encFn buf).drop k)
  ∧ (p.toWriteBuf ≠ [] →
      (pollWrite p buf).state = p.state ∧
      (∃ k, (pollWrite p buf).toWriteBuf = p.toWriteBuf.drop k) ∧
      ∀ buf2 : List Nat,
        (pollWrite p buf2).state = (pollWrite p buf).state ∧
        (pollWrite p buf2).toWriteBuf = (pollWrite p buf).toWriteBuf ∧
        (pollWrite p buf2).lowerWrites = (pollWrite p buf).lowerWrites ∧
        (pollWrite p buf2).res = withOkLen buf2.length ((pollWrite p buf).res)) := by
  constructor
  · intro htw
    rw [pollWrite_eq_empty p buf htw]
    exact ⟨rfl, pollWriteGo_drop p.lowerWrites (p.state.encFn buf) buf.length⟩
  · intro htw
    refine ⟨?_, ?_, ?_⟩
    · rw [pollWrite_eq_pending p buf htw]
    · rcases pollWriteGo_drop p.lowerWrites p.toWriteBuf buf.length with ⟨k, hk⟩
      refine ⟨k, ?_⟩
      rw [pollWrite_eq_pending p buf htw]
      exact hk
    · intro buf2
      have hfree := pollWriteGo_len_free p.lowerWrites p.toWriteBuf
        buf.length buf2.length
      have h21 := congrArg Prod.fst hfree.1
      have h22 := congrArg Prod.snd hfree.1
      rw [pollWrite_eq_pending p buf htw, pollWrite_eq_pending p buf2 htw]
      exact ⟨rfl, h21, h22, hfree.2⟩

/-- Claim C4 witness: a retried write with pending ciphertext `[1, 2]` and a
lower pipe accepting one byte leaves the engine untouched and treats a
changed slice identically up to the reported length. -/
theorem poll_write_retry_frame_w :
    (pollWrite (SosistabPipe.mk ⟨0, fun _ => [], []⟩ [] false [] [1, 2] []
      [.accept 1]) [9]).state = (SosistabPipe.mk (⟨0, fun _ => [], []⟩ : State)
        [] false [] [1, 2] [] [.accept 1]).state ∧
    (pollWrite (SosistabPipe.mk ⟨0, fun _ => [], []⟩ [] false [] [1, 2] []
      [.accept 1]) [9, 9]).res =
      withOkLen 2 ((pollWrite (SosistabPipe.mk ⟨0, fun _ => [], []⟩ [] false []
        [1, 2] [] [.accept 1]) [9]).res) := by
  have h := (poll_write_retry_frame (SosistabPipe.mk ⟨0, fun _ => [], []⟩
    [] false [] [1, 2] [] [.accept 1]) [9]).2 (by decide)
  exact ⟨h.1, (h.2.2 [9, 9]).2.2.2⟩

/-- Claim C5 (amended): with a non-empty read buffer or a closed stream,
`poll_read` answers immediately from the read buffer without touching the
lower pipe; a closed stream with an empty read buffer yields `Ready(Ok(0))`;
and `Ready(Ok(0))` happens exactly at end-of-data with an empty read buffer
— or when the caller passed an empty output buffer. -/
theorem poll_read_immediate (p : SosistabPipe) (buf : List Nat) :
    ((p.readBuf ≠ [] ∨ p.readClosed = true) →
      (pollRead p buf).res = .ready (.ok (min p.readBuf.length buf.length)) ∧
      (pollRead p buf).lowerReads = p.lowerReads ∧
      (pollRead p buf).buf =
        p.readBuf.take (min p.readBuf.length buf.length) ++
          buf.drop (min p.readBuf.length buf.length) ∧
      (pollRead p buf).readBuf = p.readBuf.drop (min p.readBuf.length buf.length) ∧
      (pollRead p buf).readClosed = p.readClosed ∧
      (pollRead p buf).rawReadBuf = p.rawReadBuf ∧
      (pollRead p buf).state = p.state)
  ∧ (p.readClosed = true → p.readBuf = [] → (pollRead p buf).res = .ready (.ok 0))
  ∧ ((pollRead p buf).res = .ready (.ok 0) →
      buf = [] ∨ ((pollRead p buf).readClosed = true ∧ (pollRead p buf).readBuf = [])) := by
  refine ⟨?_, ?_, ?_⟩
  · intro hcond
    rw [pollRead_immediate_eq p buf hcond]
    exact ⟨rfl, rfl, rfl, rfl, rfl, rfl, rfl⟩
  · intro hcl hrb
    rw [pollRead_immediate_eq p buf (Or.inr hcl), hrb]
    simp [readBufAnswer]
  · intro h
    exact pollReadGo_ok_zero p.lowerReads p.state p.readBuf p.readClosed
      p.rawReadBuf buf h

/-- Claim C5 witness: the immediate-answer path at a concrete pipe with
buffered plaintext, the end-of-data zero return, and the `Ok(0)`
characterization at a concrete call. -/
theorem poll_read_immediate_w :
    ((pollRead (SosistabPipe.mk ⟨0, fun _ => [], []⟩ [5, 6] false [4] [] [.chunk [9]] [])
        [0, 0, 0]).res = .ready (.ok 2) ∧
      (pollRead (SosistabPipe.mk ⟨0, fun _ => [], []⟩ [5, 6] false [4] [] [.chunk [9]] [])
        [0, 0, 0]).lowerReads = [.chunk [9]]) ∧
    (pollRead (SosistabPipe.mk ⟨0, fun _ => [], []⟩ [] true [] [] [] []) [7]).res
      = .ready (.ok 0) ∧
    (([] : List Nat) = [] ∨
      ((pollRead (SosistabPipe.mk ⟨0, fun _ => [], []⟩ [5] false [] [] [] []) []).readClosed = true ∧
        (pollRead (SosistabPipe.mk ⟨0, fun _ => [], []⟩ [5] false [] [] [] []) []).readBuf = [])) := by
  refine ⟨?_, ?_, ?_⟩
  · have h := (poll_read_immediate (SosistabPipe.mk ⟨0, fun _ => [], []⟩
      [5, 6] false [4] [] [.chunk [9]] []) [0, 0, 0]).1 (by decide)
    exact ⟨h.1, h.2.1⟩
  · exact (poll_read_immediate (SosistabPipe.mk ⟨0, fun _ => [], []⟩
      [] true [] [] [] []) [7]).2.1 rfl rfl
  · exact (poll_read_immediate (SosistabPipe.mk ⟨0, fun _ => [], []⟩
      [5] false [] [] [] []) []).2.2 rfl

/-- Claim C5 counterexample: `poll_read` with a NON-empty read buffer and an
open stream, called with an empty output buffer, returns `Ready(Ok(0))` —
so `Ok(0)` does not imply `read_closed ∧ read_buf empty` as the claim
states (the stream is open and a byte is still buffered at return). -/
theorem poll_read_ok_zero_ctrex :
    (pollRead (SosistabPipe.mk ⟨0, fun _ => [], []⟩ [5] false [] [] [] []) []).res
        = .ready (.ok 0) ∧
    (pollRead (SosistabPipe.mk ⟨0, fun _ => [], []⟩ [5] false [] [] [] []) []).readClosed
        = false ∧
    (pollRead (SosistabPipe.mk ⟨0, fun _ => [], []⟩ [5] false [] [] [] []) []).readBuf
        = [5] := by
  exact ⟨rfl, rfl, rfl⟩

/-- Claim C9: `poll_read` reuses the caller's buffer as ciphertext scratch —
when the lower pipe delivers a chunk and the decrypt loop yields plaintext,
the call returns `Ready(Ok(k))` with only the first `k` bytes of the
caller's buffer holding plaintext; the bytes at positions `k` and beyond
are the remains of the delivered raw ciphertext scratch. -/
theorem poll_read_scratch (p : SosistabPipe) (buf data : List Nat) (rest : List RdEv)
    (d : DecOut)
    (h1 : p.readBuf = []) (h2 : p.readClosed = false)
    (h3 : p.lowerReads = .chunk data :: rest)
    (h4 : data.take buf.length ≠ [])
    (hd : p.state.decryptLoop (p.rawReadBuf ++ data.take buf.length) p.readBuf = d)
    (h5 : d.errOut = none) (h6 : d.readBuf ≠ []) :
    (pollRead p buf).res = .ready (.ok (min d.readBuf.length buf.length)) ∧
    (pollRead p buf).buf =
      d.readBuf.take (min d.readBuf.length buf.length) ++
        (data.take buf.length ++ buf.drop (data.take buf.length).length).drop
          (min d.readBuf.length buf.length) ∧
    (pollRead p buf).readBuf = d.readBuf.drop (min d.readBuf.length buf.length) := by
  have hlen : (data.take buf.length ++ buf.drop (data.take buf.length).length).length
      = buf.length := by
    simp only [List.length_append, List.length_take, List.length_drop]
    omega
  unfold pollRead
  rw [h1, h2, h3]
  unfold State.decryptLoop at hd
  rw [h1] at hd
  rw [pollReadGo_chunk_step p.state p.rawReadBuf buf data rest h4 d hd h5]
  rw [pollReadGo_immediate _ _ _ _ _ _ (Or.inl h6)]
  unfold readBufAnswer
  rw [hlen]
  exact ⟨rfl, rfl, rfl⟩

/-- Claim C9 witness: lower delivers ciphertext `[7,7,7,7]` into the
caller's buffer `[9,9,9,9]`; one byte of plaintext `1` is produced; the
call returns `Ok(1)` and the buffer reads `[1,7,7,7]` — ciphertext residue
beyond position 1. -/
theorem poll_read_scratch_w :
    (pollRead (SosistabPipe.mk ⟨0, fun _ => [], [.ok 4 [1]]⟩ [] false [] []
        [.chunk [7, 7, 7, 7]] []) [9, 9, 9, 9]).res = .ready (.ok 1) ∧
    (pollRead (SosistabPipe.mk ⟨0, fun _ => [], [.ok 4 [1]]⟩ [] false [] []
        [.chunk [7, 7, 7, 7]] []) [9, 9, 9, 9]).buf = [1, 7, 7, 7] := by
  have h := poll_read_scratch (SosistabPipe.mk ⟨0, fun _ => [], [.ok 4 [1]]⟩
      [] false [] [] [.chunk [7, 7, 7, 7]] []) [9, 9, 9, 9] [7, 7, 7, 7] []
      ⟨⟨0, fun _ => [], []⟩, [], [1], none⟩ rfl rfl rfl (by decide) rfl rfl (by decide)
  refine ⟨h.1, ?_⟩
  rw [h.2.1]
  rfl

/-- Claim C10: a zero-length read from the lower pipe marks the stream
closed and `poll_read` (with the read buffer already drained) returns a
clean `Ready(Ok(0))` — the undecryptable leftover in `raw_read_buf` is kept
but never decrypted (the engine is not consulted) and no error is raised. -/
theorem poll_read_eof_discard (p : SosistabPipe) (buf : List Nat) (rest : List RdEv)
    (h1 : p.readBuf = []) (h2 : p.readClosed = false)
    (h3 : p.lowerReads = .chunk [] :: rest) :
    (pollRead p buf).res = .ready (.ok 0) ∧
    (pollRead p buf).readClosed = true ∧
    (pollRead p buf).rawReadBuf = p.rawReadBuf ∧
    (pollRead p buf).state = p.state ∧
    (pollRead p buf).readBuf = [] ∧
    (pollRead p buf).buf = buf ∧
    (pollRead p buf).lowerReads = rest := by
  unfold pollRead
  rw [h1, h2, h3]
  rw [pollReadGo, if_neg (by simp), if_pos (by simp)]
  rw [pollReadGo_immediate _ _ _ _ _ _ (Or.inr rfl)]
  exact ⟨by simp [readBufAnswer], rfl, rfl, rfl, by simp [readBufAnswer],
    by simp [readBufAnswer], rfl⟩

/-- Claim C10 witness: end-of-data with three leftover ciphertext bytes in
`raw_read_buf` — the call reports a clean zero-byte end-of-stream, keeps the
leftovers undecrypted, and leaves the engine untouched. -/
theorem poll_read_eof_discard_w :
    (pollRead (SosistabPipe.mk ⟨0, fun _ => [], []⟩ [] false [1, 2, 3] []
        [.chunk []] []) [9]).res = .ready (.ok 0) ∧
    (pollRead (SosistabPipe.mk ⟨0, fun _ => [], []⟩ [] false [1, 2, 3] []
        [.chunk []] []) [9]).readClosed = true ∧
    (pollRead (SosistabPipe.mk ⟨0, fun _ => [], []⟩ [] false [1, 2, 3] []
        [.chunk []] []) [9]).rawReadBuf = [1, 2, 3] := by
  have h := poll_read_eof_discard (SosistabPipe.mk ⟨0, fun _ => [], []⟩
    [] false [1, 2, 3] [] [.chunk []] []) [9] [] rfl rfl rfl
  exact ⟨h.1, h.2.1, h.2.2.1⟩

end Sosistab3
